import Mathlib

/-!
Verification of the migration-key ordering, pairwise migration comparator,
migration pass, response cache and cache-invalidation fan-out of the
`@ghom/orm` library, as a shallow embedding of the TypeScript source.

Sources embedded:
* `Table.getMigrationKeys`, `Table.compareMigrationKeys`, `Table.migrate`
  (class `Table`);
* `ResponseCache.get` / `ResponseCache.invalidate` (the `CachedQuery`
  implementation);
* `Table.cache.set`, `Table.cache.invalidate`, `ORM.cache.invalidate`.

Modelling conventions:
* JavaScript numbers arising from digit strings (`Number(k)`, `parseInt`)
  are modelled as `Nat` (exact below 2^53, which covers every realistic
  migration key).
* `Array.prototype.sort(cmp)` with a consistent comparator is required by
  ES2019 to be a stable sort; it is modelled by `List.insertionSort` over
  the relation `cmp a b ≤ 0`, which is the stable sort.
* `String.prototype.localeCompare` is modelled as code-point lexicographic
  comparison (the `LinearOrder String` instance).
* `Date.now()` is an arbitrary `Nat`; the TTL (which defaults to
  `Infinity`) is an extended natural `ETime`.
* Asynchronous producers are modelled as functions into `Except`: a
  synchronous throw is `Except.error`; a promise is modelled by its settled
  outcome, so a producer returning a promise that later rejects is a
  producer returning the value `Except.error e` of an inner `Except` type.
-/

namespace GhomOrm

/-! ### Migration key classification (regexes of `getMigrationKeys`) -/

/-- Numeric value of a digit string, folding decimal digits left to right.
Models `Number`/`parseInt` on a string of ASCII digits. -/
def digitsToNat (cs : List Char) : Nat :=
  cs.foldl (fun acc c => acc * 10 + (c.toNat - 48)) 0

/-- Models `Number(k)` for a key `k` matching the pure-numeric regex. -/
def numVal (k : String) : Nat :=
  digitsToNat k.data

/-- Models `parseInt(key.match(/^(\d+)/)?.[1] ?? "0", 10)`: the numeric
value of the leading digit run of the key (0 when there is none). -/
def prefixVal (k : String) : Nat :=
  digitsToNat (k.data.takeWhile Char.isDigit)

/-- Models the test `/^\d+$/.test(k)`: the key is a nonempty string of
digits. -/
def isPureNumeric (k : String) : Bool :=
  !k.data.isEmpty && k.data.all Char.isDigit

/-- Models the test `/^\d+/.test(k)` (equivalently `/^\d/.test(k)`): the
key starts with a digit. -/
def startsWithDigit (k : String) : Bool :=
  match k.data with
  | [] => false
  | c :: _ => c.isDigit

/-- A character of the regex class `[_\-a-zA-Z]`. -/
def isSepChar (c : Char) : Bool :=
  c == '_' || c == '-' || c.isAlpha

/-- After the leading digit run, checks that the next character is in
`[_\-a-zA-Z]`. -/
def afterDigitRun : List Char → Bool
  | [] => false
  | c :: rest => if c.isDigit then afterDigitRun rest else isSepChar c

/-- Models the test `/^\d+[_\-a-zA-Z]/.test(k)` used to categorize keys in
the mixed-pattern error message. -/
def isPrefixedPattern (k : String) : Bool :=
  match k.data with
  | [] => false
  | c :: rest => c.isDigit && afterDigitRun rest

/-! ### Stable sorting by a rank function

`keys.sort((a, b) => rank(a) - rank(b))` is, for a consistent comparator,
the stable sort by `rank a ≤ rank b`; `List.insertionSort` realizes it. -/

/-- The relation `rank a ≤ rank b`, i.e. `cmp(a, b) ≤ 0` for the JS
comparator `cmp = (a, b) => rank(a) - rank(b)`. -/
def rankLe {α β : Type} [LE β] (rank : α → β) (a b : α) : Prop :=
  rank a ≤ rank b

instance {α β : Type} [LinearOrder β] (rank : α → β) : DecidableRel (rankLe rank) :=
  fun a b => inferInstanceAs (Decidable (rank a ≤ rank b))

instance {α β : Type} [LinearOrder β] (rank : α → β) : IsTotal α (rankLe rank) :=
  ⟨fun a b => le_total (rank a) (rank b)⟩

instance {α β : Type} [LinearOrder β] (rank : α → β) : IsTrans α (rankLe rank) :=
  ⟨fun _ _ _ hab hbc => le_trans hab hbc⟩

/-! ### `Table.getMigrationKeys` -/

/-- Payload of the mixed-patterns configuration error: the offending keys,
categorized exactly as the source builds the message parts (`numeric
keys`, `prefixed keys`, `string keys`). -/
structure MixedKeysError where
  numericKeys : List String
  prefixedKeys : List String
  stringKeys : List String
deriving DecidableEq, Repr

/-- Models `Table.getMigrationKeys`: classify the declared migration keys
and return them sorted (or the mixed-patterns configuration error).
`keys` is `Object.keys(this.options.migrations)` in enumeration order;
`alphabeticalOrder` is `ormConfig?.migrations?.alphabeticalOrder`. -/
def getMigrationKeys (keys : List String) (alphabeticalOrder : Bool) :
    Except MixedKeysError (List String) :=
  if keys.isEmpty then Except.ok []
  else
    let allPureNumeric := keys.all isPureNumeric
    let allNumPrefixed := keys.all startsWithDigit
    let allPureString := keys.all fun k => !startsWithDigit k
    if !allPureNumeric && !allNumPrefixed && !allPureString then
      Except.error
        { numericKeys := keys.filter isPureNumeric
          prefixedKeys := keys.filter isPrefixedPattern
          stringKeys := keys.filter fun k => !startsWithDigit k }
    else if allPureNumeric then
      Except.ok (List.insertionSort (rankLe numVal) keys)
    else if allNumPrefixed then
      Except.ok (List.insertionSort (rankLe prefixVal) keys)
    else if alphabeticalOrder then
      Except.ok (List.insertionSort (rankLe String.data) keys)
    else
      Except.ok keys

/-! ### `Table.compareMigrationKeys` -/

/-- Models `a.localeCompare(b)` (sign only), as code-point lexicographic
comparison of the character lists. -/
def strCompare (a b : String) : Int :=
  if a.data < b.data then -1 else if b.data < a.data then 1 else 0

/-- Models `Table.compareMigrationKeys`. -/
def compareMigrationKeys (a b : String) : Int :=
  if isPureNumeric a && isPureNumeric b then
    (numVal a : Int) - (numVal b : Int)
  else if startsWithDigit a && startsWithDigit b then
    (prefixVal a : Int) - (prefixVal b : Int)
  else
    strCompare a b

/-! ### `Table.migrate` -/

/-- The persisted migration record, one row per table:
`migration` table columns `table` (unique) and `version`. -/
structure MigrationData where
  table : String
  version : String
deriving DecidableEq, Repr

/-- Models `const data = fromDatabase || (table: name, version: "")`. -/
def initialMigrationData (name : String) (fromDatabase : Option MigrationData) :
    MigrationData :=
  fromDatabase.getD { table := name, version := "" }

/-- Models the migration loop of `Table.migrate`: walk the sorted keys,
skipping `key` when `data.version !== "" && compareMigrationKeys(key,
data.version) <= 0`, otherwise applying the migration and setting
`data.version = key`. Returns the final version together with the list of
applied keys in application order. -/
def migratePass : List String → String → String × List String
  | [], v => (v, [])
  | k :: ks, v =>
    if v ≠ "" ∧ compareMigrationKeys k v ≤ 0 then
      migratePass ks v
    else
      let rest := migratePass ks k
      (rest.1, k :: rest.2)

/-! ### `ResponseCache` (the `CachedQuery` implementation) -/

/-- Extended time value: a finite millisecond timestamp or `Infinity`
(the default TTL). -/
inductive ETime where
  | fin : Nat → ETime
  | inf : ETime
deriving DecidableEq, Repr

/-- Models `expires < Date.now()` for a finite current time `now`. -/
def ETime.ltNat : ETime → Nat → Bool
  | ETime.fin m, n => decide (m < n)
  | ETime.inf, _ => false

/-- Models `Date.now() + this._timeout`: adds a finite `now` to a possibly
infinite timeout. -/
def ETime.addNow (t : ETime) (now : Nat) : ETime :=
  match t with
  | ETime.fin m => ETime.fin (now + m)
  | ETime.inf => ETime.inf

/-- One stored cache entry (`ResponseCacheData`): a value and its
expiration instant. -/
structure CacheEntry (V : Type) where
  value : V
  expires : ETime
deriving DecidableEq, Repr

/-- The private `Map` of a `ResponseCache`, as an association list with
unique keys (JS `Map` semantics). -/
abbrev CacheState (V : Type) := List (String × CacheEntry V)

/-- Models `this._cache.get(id)`. -/
def lookupEntry {V : Type} : CacheState V → String → Option (CacheEntry V)
  | [], _ => none
  | (k, e) :: rest, key => if k = key then some e else lookupEntry rest key

/-- Models `this._cache.set(id, entry)`: replace the binding if present,
append otherwise. -/
def setEntry {V : Type} (key : String) (e : CacheEntry V) : CacheState V → CacheState V
  | [] => [(key, e)]
  | (k, e0) :: rest => if k = key then (key, e) :: rest else (k, e0) :: setEntry key e rest

/-- Models `this._cache.delete(id)`. -/
def delEntry {V : Type} (key : String) : CacheState V → CacheState V
  | [] => []
  | (k, e0) :: rest => if k = key then rest else (k, e0) :: delEntry key rest

/-- Models `ResponseCache.get(id, ...params)`. The producer `_request` may
throw (`Except.error`). Returns the call result, the cache map after the
call, and whether the producer was invoked. -/
def rcGet {P E V : Type} (request : P → Except E V) (timeout : ETime) (now : Nat)
    (cache : CacheState V) (key : String) (params : P) :
    Except E V × CacheState V × Bool :=
  let recompute : Unit → Except E V × CacheState V × Bool := fun _ =>
    match request params with
    | Except.error e => (Except.error e, cache, true)
    | Except.ok v =>
      (Except.ok v, setEntry key { value := v, expires := timeout.addNow now } cache, true)
  match lookupEntry cache key with
  | none => recompute ()
  | some c =>
    if c.expires.ltNat now then recompute ()
    else (Except.ok c.value, cache, false)

/-- Models `ResponseCache.invalidate(id?)`. The source guard is `if (!id)`,
and in JavaScript both `undefined` and the empty string are falsy, so
`invalidate("")` clears the whole map. -/
def rcInvalidate {V : Type} (key : Option String) (cache : CacheState V) : CacheState V :=
  match key with
  | none => []
  | some k => if k = "" then [] else delEntry k cache

/-! ### `Table.cache.set` and `ORM.cache.invalidate` -/

/-- The two `CachedQuery` instances owned by one table: `_whereCache`
(row-set cache) and `_countCache`. -/
structure TableCaches (Vw Vc : Type) where
  whereCache : CacheState Vw
  countCache : CacheState Vc
deriving Repr

/-- Process-wide cache state: the ORM raw-query cache `_rawCache` plus the
caches of all tables registered in `orm.cachedTables`, by table name. -/
structure ORMState (Vw Vc Vr : Type) where
  rawCache : CacheState Vr
  tables : List (String × TableCaches Vw Vc)
deriving Repr

/-- Models `ORM.cache.invalidate`: `this._rawCache?.invalidate()` followed
by `this.cachedTables.forEach((table) => table.cache.invalidate())`, where
each table invalidation clears that table's where cache and count cache
and clears the raw cache again. -/
def ormCacheInvalidate {Vw Vc Vr : Type} (s : ORMState Vw Vc Vr) : ORMState Vw Vc Vr :=
  { rawCache := []
    tables := s.tables.map fun nt => (nt.1, { whereCache := [], countCache := [] }) }

/-- Models `Table.cache.set(cb)`: `this.orm.cache.invalidate(); return
cb(this.query)`. The invoking table name is recorded but, as in the source
(`todo: invalidate only the related tables`), the invalidation is global.
The write callback acts on the backing database state `db` and may fail.
Returns the callback result, the cache state, and the backing state. -/
def tableCacheSet {Vw Vc Vr B R E : Type} (_tableName : String) (s : ORMState Vw Vc Vr)
    (db : B) (writeFn : B → Except E (R × B)) :
    Except E R × ORMState Vw Vc Vr × B :=
  let s1 := ormCacheInvalidate s
  match writeFn db with
  | Except.error e => (Except.error e, s1, db)
  | Except.ok rv => (Except.ok rv.1, s1, rv.2)

end GhomOrm

deriving instance DecidableEq for Except

namespace GhomOrm

/-! ### Helper lemmas about the stable sort -/

theorem sortRank_perm {α β : Type} [LinearOrder β] (rank : α → β) (l : List α) :
    (List.insertionSort (rankLe rank) l).Perm l :=
  List.perm_insertionSort _ l

theorem sortRank_pairwise {α β : Type} [LinearOrder β] (rank : α → β) (l : List α) :
    (List.insertionSort (rankLe rank) l).Pairwise (rankLe rank) :=
  List.sorted_insertionSort _ l

theorem sortRank_filter {α β : Type} [LinearOrder β] (rank : α → β) (l : List α) (v : β) :
    (List.insertionSort (rankLe rank) l).filter (fun x => decide (rank x = v)) =
      l.filter (fun x => decide (rank x = v)) := by
  set p : α → Bool := fun x => decide (rank x = v) with hp
  have hmem : ∀ x ∈ l.filter p, rank x = v := by
    intro x hx
    have h2 := (List.mem_filter.mp hx).2
    simpa [hp] using h2
  have hc : (l.filter p).Pairwise (rankLe rank) := by
    apply List.pairwise_of_forall_mem_list
    intro a ha b hb
    show rank a ≤ rank b
    rw [hmem a ha, hmem b hb]
  have hsub : List.Sublist (l.filter p) (List.insertionSort (rankLe rank) l) :=
    List.sublist_insertionSort hc (List.filter_sublist l)
  have hself : (l.filter p).filter p = l.filter p :=
    List.filter_eq_self.mpr fun a ha => (List.mem_filter.mp ha).2
  have hsub2 : List.Sublist (l.filter p) ((List.insertionSort (rankLe rank) l).filter p) := by
    have h3 := hsub.filter p
    rwa [hself] at h3
  have hperm : List.Perm ((List.insertionSort (rankLe rank) l).filter p) (l.filter p) :=
    (List.perm_insertionSort (rankLe rank) l).filter p
  exact (hsub2.eq_of_length hperm.length_eq.symm).symm

theorem rank_indexOf_lt_iff {α β : Type} [DecidableEq α] [LinearOrder β] {rank : α → β}
    {l : List α} {a b : α} (hp : l.Pairwise (rankLe rank)) (ha : a ∈ l) (hb : b ∈ l)
    (hne : rank a ≠ rank b) :
    l.indexOf a < l.indexOf b ↔ rank a < rank b := by
  have hal : l.indexOf a < l.length := List.indexOf_lt_length.mpr ha
  have hbl : l.indexOf b < l.length := List.indexOf_lt_length.mpr hb
  have hga : l.get ⟨l.indexOf a, hal⟩ = a := List.indexOf_get hal
  have hgb : l.get ⟨l.indexOf b, hbl⟩ = b := List.indexOf_get hbl
  have hpg := List.pairwise_iff_get.mp hp
  constructor
  · intro hlt
    have hle : rankLe rank a b := by
      have h4 := hpg ⟨l.indexOf a, hal⟩ ⟨l.indexOf b, hbl⟩ (Fin.mk_lt_mk.mpr hlt)
      rwa [hga, hgb] at h4
    exact lt_of_le_of_ne hle hne
  · intro hlt
    rcases Nat.lt_trichotomy (l.indexOf a) (l.indexOf b) with h1 | h1 | h1
    · exact h1
    · exfalso
      apply hne
      have hab : a = b := by
        rw [← hga, ← hgb]
        congr 1
        exact Fin.ext h1
      rw [hab]
    · exfalso
      have hle : rankLe rank b a := by
        have h4 := hpg ⟨l.indexOf b, hbl⟩ ⟨l.indexOf a, hal⟩ (Fin.mk_lt_mk.mpr h1)
        rwa [hga, hgb] at h4
      exact absurd hlt (not_lt.mpr hle)

/-! ### Helper lemmas about key classification -/

theorem startsWithDigit_of_isPureNumeric {k : String} (h : isPureNumeric k = true) :
    startsWithDigit k = true := by
  simp only [isPureNumeric, Bool.and_eq_true] at h
  unfold startsWithDigit
  cases hd : k.data with
  | nil => rw [hd] at h; simp at h
  | cons c cs =>
    have hall := h.2
    rw [hd] at hall
    exact List.all_eq_true.mp hall c (List.mem_cons_self c cs)

theorem numVal_eq_prefixVal {k : String} (h : isPureNumeric k = true) :
    numVal k = prefixVal k := by
  simp only [isPureNumeric, Bool.and_eq_true] at h
  unfold numVal prefixVal
  have hall : ∀ c ∈ k.data, Char.isDigit c := by
    intro c hc
    exact List.all_eq_true.mp h.2 c hc
  rw [List.takeWhile_eq_self_iff.mpr hall]

theorem isEmpty_false_of_ne_nil {α : Type} {l : List α} (h : l ≠ []) : l.isEmpty = false := by
  cases l with
  | nil => exact absurd rfl h
  | cons a t => rfl

/-! ### Branch evaluation lemmas for `getMigrationKeys` -/

theorem getMigrationKeys_pure_numeric (keys : List String) (alpha : Bool) (hne : keys ≠ [])
    (h : keys.all isPureNumeric = true) :
    getMigrationKeys keys alpha = Except.ok (List.insertionSort (rankLe numVal) keys) := by
  have hK := isEmpty_false_of_ne_nil hne
  simp only [getMigrationKeys, hK, Bool.false_eq_true, if_false, h, Bool.not_true,
    Bool.false_and, if_true]

theorem getMigrationKeys_all_digit (keys : List String) (alpha : Bool) (hne : keys ≠ [])
    (hB : keys.all startsWithDigit = true) (hnp : keys.all isPureNumeric = false) :
    getMigrationKeys keys alpha = Except.ok (List.insertionSort (rankLe prefixVal) keys) := by
  have hK := isEmpty_false_of_ne_nil hne
  simp only [getMigrationKeys, hK, Bool.false_eq_true, if_false, hB, hnp, Bool.not_true,
    Bool.not_false, Bool.true_and, Bool.false_and, Bool.and_false, if_true]

theorem all_not_digit_facts (keys : List String) (hne : keys ≠ [])
    (h : (keys.all fun k => !startsWithDigit k) = true) :
    keys.all isPureNumeric = false ∧ keys.all startsWithDigit = false := by
  obtain ⟨k0, hk0⟩ := List.exists_mem_of_ne_nil keys hne
  have h0 : (!startsWithDigit k0) = true := List.all_eq_true.mp h k0 hk0
  have h0d : startsWithDigit k0 = false := by simpa using h0
  constructor
  · apply Bool.eq_false_iff.mpr
    intro hall
    have hp := List.all_eq_true.mp hall k0 hk0
    rw [startsWithDigit_of_isPureNumeric hp] at h0d
    exact Bool.true_eq_false.mp h0d
  · apply Bool.eq_false_iff.mpr
    intro hall
    have hp := List.all_eq_true.mp hall k0 hk0
    rw [hp] at h0d
    exact Bool.true_eq_false.mp h0d

theorem getMigrationKeys_pure_string (keys : List String) (alpha : Bool) (hne : keys ≠ [])
    (h : (keys.all fun k => !startsWithDigit k) = true) :
    getMigrationKeys keys alpha =
      Except.ok
        (if alpha then List.insertionSort (rankLe String.data) keys else keys) := by
  have hK := isEmpty_false_of_ne_nil hne
  obtain ⟨hnp, hnd⟩ := all_not_digit_facts keys hne h
  simp only [getMigrationKeys, hK, Bool.false_eq_true, if_false, hnp, hnd, h, Bool.not_true,
    Bool.not_false, Bool.true_and, Bool.and_false, Bool.and_true, if_true]
  cases alpha with
  | false => simp
  | true => simp

/-! ### Claim C1 -/

/-- C1: for every non-empty migration key set whose keys all belong to one
class, `getMigrationKeys` returns exactly those keys (a permutation)
ordered by that class rule: pure-numeric keys ascending by the numeric
value of the whole key; numeric-prefixed keys ascending by the numeric
value of the leading digit run with declaration order preserved for equal
values (stable sort, expressed by the filter equations); pure-string keys
in declaration order by default, or lexicographically when the
`alphabeticalOrder` configuration flag is set. -/
theorem getMigrationKeys_single_class_order (keys : List String) (alpha : Bool)
    (hne : keys ≠ []) :
    (keys.all isPureNumeric = true →
      ∃ r, getMigrationKeys keys alpha = Except.ok r ∧ r.Perm keys ∧
        r.Pairwise (fun a b => numVal a ≤ numVal b) ∧
        ∀ v : Nat, r.filter (fun k => decide (numVal k = v)) =
          keys.filter (fun k => decide (numVal k = v))) ∧
    ((keys.all fun k => startsWithDigit k && !isPureNumeric k) = true →
      ∃ r, getMigrationKeys keys alpha = Except.ok r ∧ r.Perm keys ∧
        r.Pairwise (fun a b => prefixVal a ≤ prefixVal b) ∧
        ∀ v : Nat, r.filter (fun k => decide (prefixVal k = v)) =
          keys.filter (fun k => decide (prefixVal k = v))) ∧
    ((keys.all fun k => !startsWithDigit k) = true →
      (alpha = true →
        ∃ r, getMigrationKeys keys alpha = Except.ok r ∧ r.Perm keys ∧
          r.Pairwise (fun a b => a.data ≤ b.data)) ∧
      (alpha = false → getMigrationKeys keys alpha = Except.ok keys)) := by
  refine ⟨?_, ?_, ?_⟩
  · intro h
    exact ⟨List.insertionSort (rankLe numVal) keys,
      getMigrationKeys_pure_numeric keys alpha hne h,
      sortRank_perm numVal keys, sortRank_pairwise numVal keys,
      fun v => sortRank_filter numVal keys v⟩
  · intro h
    have hB : keys.all startsWithDigit = true := by
      apply List.all_eq_true.mpr
      intro k hk
      have hx := List.all_eq_true.mp h k hk
      simp only [Bool.and_eq_true] at hx
      exact hx.1
    have hnp : keys.all isPureNumeric = false := by
      obtain ⟨k0, hk0⟩ := List.exists_mem_of_ne_nil keys hne
      have hx := List.all_eq_true.mp h k0 hk0
      have hx2 : isPureNumeric k0 = false := by
        simp only [Bool.and_eq_true] at hx
        simpa using hx.2
      apply Bool.eq_false_iff.mpr
      intro hall
      rw [List.all_eq_true.mp hall k0 hk0] at hx2
      exact Bool.true_eq_false.mp hx2
    exact ⟨List.insertionSort (rankLe prefixVal) keys,
      getMigrationKeys_all_digit keys alpha hne hB hnp,
      sortRank_perm prefixVal keys, sortRank_pairwise prefixVal keys,
      fun v => sortRank_filter prefixVal keys v⟩
  · intro h
    constructor
    · intro halpha
      subst halpha
      have hbr := getMigrationKeys_pure_string keys true hne h
      rw [if_pos rfl] at hbr
      exact ⟨List.insertionSort (rankLe String.data) keys, hbr,
        sortRank_perm String.data keys, sortRank_pairwise String.data keys⟩
    · intro halpha
      subst halpha
      have hbr := getMigrationKeys_pure_string keys false hne h
      rwa [if_neg (by simp)] at hbr

/-- C1 witness: the spec examples. The pure-numeric set orders
numerically, the prefixed set orders by prefix, and a string set keeps
declaration order by default. -/
theorem getMigrationKeys_single_class_order_witness :
    (∃ r, getMigrationKeys ["10", "2", "1"] false = Except.ok r ∧
      r.Perm ["10", "2", "1"] ∧
      r.Pairwise (fun a b => numVal a ≤ numVal b) ∧
      ∀ v : Nat, r.filter (fun k => decide (numVal k = v)) =
        ["10", "2", "1"].filter (fun k => decide (numVal k = v))) ∧
    getMigrationKeys ["init", "add_column"] false = Except.ok ["init", "add_column"] :=
  ⟨(getMigrationKeys_single_class_order ["10", "2", "1"] false (by decide)).1 (by decide),
    ((getMigrationKeys_single_class_order ["init", "add_column"] false
      (by decide)).2.2 (by decide)).2 rfl⟩

/-! ### Claim C2 -/

theorem compareMigrationKeys_pure_numeric {a b : String} (ha : isPureNumeric a = true)
    (hb : isPureNumeric b = true) :
    compareMigrationKeys a b = (numVal a : Int) - (numVal b : Int) := by
  unfold compareMigrationKeys
  rw [ha, hb]
  simp

theorem compareMigrationKeys_lt_iff_of_digit {a b : String}
    (ha : startsWithDigit a = true) (hb : startsWithDigit b = true) :
    (compareMigrationKeys a b < 0 ↔ prefixVal a < prefixVal b) := by
  unfold compareMigrationKeys
  cases hpa : isPureNumeric a with
  | false =>
    simp only [ha, hb, Bool.false_and, Bool.and_self, Bool.false_eq_true, if_false, if_true]
    omega
  | true =>
    cases hpb : isPureNumeric b with
    | false =>
      simp only [ha, hb, Bool.true_and, Bool.and_self, Bool.false_eq_true, if_false, if_true]
      omega
    | true =>
      simp only [Bool.and_self, if_true]
      rw [numVal_eq_prefixVal hpa, numVal_eq_prefixVal hpb]
      omega

theorem strCompare_lt_iff {a b : String} : (strCompare a b < 0 ↔ a.data < b.data) := by
  unfold strCompare
  split_ifs with h1 h2
  · exact iff_of_true (by norm_num) h1
  · exact iff_of_false (by norm_num) h1
  · exact iff_of_false (by norm_num) h1

theorem compareMigrationKeys_lt_iff_of_string {a b : String}
    (ha : startsWithDigit a = false) (_hb : startsWithDigit b = false) :
    (compareMigrationKeys a b < 0 ↔ a.data < b.data) := by
  have hpa : isPureNumeric a = false := by
    cases hp : isPureNumeric a with
    | false => rfl
    | true => rw [startsWithDigit_of_isPureNumeric hp] at ha; exact ha
  unfold compareMigrationKeys
  rw [hpa, ha]
  simp only [Bool.false_and, Bool.false_eq_true, if_false]
  exact strCompare_lt_iff

/-- C2 (amended): the pairwise comparator agrees with the batch sort order
from `getMigrationKeys` whenever the two keys have distinct sort ranks in
their class, and for pure-string keys under the alphabetical order: for
pure-numeric key sets when the two numeric values differ, for digit-led
key sets when the two numeric leading runs differ, and for pure-string
key sets under the `alphabeticalOrder` flag. It does not agree for
pure-string keys under default insertion order, nor strictly for keys of
equal numeric rank (see the counterexample). -/
theorem compareMigrationKeys_agrees_with_sort (keys : List String) (a b : String)
    (ha : a ∈ keys) (hb : b ∈ keys) :
    (∀ alpha r, keys.all isPureNumeric = true → numVal a ≠ numVal b →
      getMigrationKeys keys alpha = Except.ok r →
      (compareMigrationKeys a b < 0 ↔ r.indexOf a < r.indexOf b)) ∧
    (∀ alpha r, keys.all startsWithDigit = true → prefixVal a ≠ prefixVal b →
      getMigrationKeys keys alpha = Except.ok r →
      (compareMigrationKeys a b < 0 ↔ r.indexOf a < r.indexOf b)) ∧
    (∀ r, (keys.all fun k => !startsWithDigit k) = true → a ≠ b →
      getMigrationKeys keys true = Except.ok r →
      (compareMigrationKeys a b < 0 ↔ r.indexOf a < r.indexOf b)) := by
  have hne : keys ≠ [] := List.ne_nil_of_mem ha
  refine ⟨?_, ?_, ?_⟩
  · intro alpha r hall hnv hok
    have hbr := getMigrationKeys_pure_numeric keys alpha hne hall
    rw [hbr] at hok
    have hr : r = List.insertionSort (rankLe numVal) keys := (Except.ok.inj hok).symm
    subst hr
    have hpa := List.all_eq_true.mp hall a ha
    have hpb := List.all_eq_true.mp hall b hb
    have hma : a ∈ List.insertionSort (rankLe numVal) keys :=
      (sortRank_perm numVal keys).mem_iff.mpr ha
    have hmb : b ∈ List.insertionSort (rankLe numVal) keys :=
      (sortRank_perm numVal keys).mem_iff.mpr hb
    rw [compareMigrationKeys_pure_numeric hpa hpb,
      rank_indexOf_lt_iff (sortRank_pairwise numVal keys) hma hmb hnv]
    omega
  · intro alpha r hall hnv hok
    have hda := List.all_eq_true.mp hall a ha
    have hdb := List.all_eq_true.mp hall b hb
    cases hall2 : keys.all isPureNumeric with
    | true =>
      have hbr := getMigrationKeys_pure_numeric keys alpha hne hall2
      rw [hbr] at hok
      have hr : r = List.insertionSort (rankLe numVal) keys := (Except.ok.inj hok).symm
      subst hr
      have hpw : (List.insertionSort (rankLe numVal) keys).Pairwise (rankLe prefixVal) := by
        refine (sortRank_pairwise numVal keys).imp_of_mem ?_
        intro x y hx hy hxy
        have hx2 : x ∈ keys := (sortRank_perm numVal keys).mem_iff.mp hx
        have hy2 : y ∈ keys := (sortRank_perm numVal keys).mem_iff.mp hy
        show prefixVal x ≤ prefixVal y
        rw [← numVal_eq_prefixVal (List.all_eq_true.mp hall2 x hx2),
          ← numVal_eq_prefixVal (List.all_eq_true.mp hall2 y hy2)]
        exact hxy
      have hma : a ∈ List.insertionSort (rankLe numVal) keys :=
        (sortRank_perm numVal keys).mem_iff.mpr ha
      have hmb : b ∈ List.insertionSort (rankLe numVal) keys :=
        (sortRank_perm numVal keys).mem_iff.mpr hb
      rw [compareMigrationKeys_lt_iff_of_digit hda hdb,
        rank_indexOf_lt_iff hpw hma hmb hnv]
    | false =>
      have hbr := getMigrationKeys_all_digit keys alpha hne hall hall2
      rw [hbr] at hok
      have hr : r = List.insertionSort (rankLe prefixVal) keys := (Except.ok.inj hok).symm
      subst hr
      have hma : a ∈ List.insertionSort (rankLe prefixVal) keys :=
        (sortRank_perm prefixVal keys).mem_iff.mpr ha
      have hmb : b ∈ List.insertionSort (rankLe prefixVal) keys :=
        (sortRank_perm prefixVal keys).mem_iff.mpr hb
      rw [compareMigrationKeys_lt_iff_of_digit hda hdb,
        rank_indexOf_lt_iff (sortRank_pairwise prefixVal keys) hma hmb hnv]
  · intro r hall hne_ab hok
    have hbr := getMigrationKeys_pure_string keys true hne hall
    rw [if_pos rfl] at hbr
    rw [hbr] at hok
    have hr : r = List.insertionSort (rankLe String.data) keys := (Except.ok.inj hok).symm
    subst hr
    have hda : startsWithDigit a = false := by
      have hx := List.all_eq_true.mp hall a ha
      simpa using hx
    have hdb : startsWithDigit b = false := by
      have hx := List.all_eq_true.mp hall b hb
      simpa using hx
    have hnv : a.data ≠ b.data := by
      intro hd
      apply hne_ab
      cases a with
      | mk la =>
        cases b with
        | mk lb =>
          have hlab : la = lb := by simpa using hd
          rw [hlab]
    have hma : a ∈ List.insertionSort (rankLe String.data) keys :=
      (sortRank_perm String.data keys).mem_iff.mpr ha
    have hmb : b ∈ List.insertionSort (rankLe String.data) keys :=
      (sortRank_perm String.data keys).mem_iff.mpr hb
    rw [compareMigrationKeys_lt_iff_of_string hda hdb,
      rank_indexOf_lt_iff (sortRank_pairwise String.data keys) hma hmb hnv]

/-- C2 witness: in the pure-numeric set declared as 10, 2, 1 the comparator
agrees with the computed order for the pair 2, 10. -/
theorem compareMigrationKeys_agrees_with_sort_witness :
    compareMigrationKeys "2" "10" < 0 ↔
      (["1", "2", "10"] : List String).indexOf "2" <
        (["1", "2", "10"] : List String).indexOf "10" :=
  (compareMigrationKeys_agrees_with_sort ["10", "2", "1"] "2" "10" (by decide)
    (by decide)).1 false ["1", "2", "10"] (by decide) (by decide) (by decide)

/-- C2 counterexample: the claim fails as stated. With pure-string keys
declared in the order b, a under the default insertion order, the batch
order keeps b before a although compare(a, b) < 0 (so compare(a, b) < 0
does not imply a sorts before b); with numeric-prefixed keys 001_b, 001_a
whose numeric runs are equal, 001_b sorts before 001_a although
compare(001_b, 001_a) = 0, not negative. -/
theorem compareMigrationKeys_disagrees_cx :
    (getMigrationKeys ["b", "a"] false = Except.ok ["b", "a"] ∧
      compareMigrationKeys "a" "b" < 0 ∧
      (["b", "a"] : List String).indexOf "b" < (["b", "a"] : List String).indexOf "a") ∧
    (getMigrationKeys ["001_b", "001_a"] false = Except.ok ["001_b", "001_a"] ∧
      compareMigrationKeys "001_b" "001_a" = 0 ∧
      (["001_b", "001_a"] : List String).indexOf "001_b" <
        (["001_b", "001_a"] : List String).indexOf "001_a") :=
  ⟨⟨by decide, by decide, by decide⟩, ⟨by decide, by decide, by decide⟩⟩

/-! ### Claim C3 -/

/-- C3: evaluation at the failing input. The key set containing the
pure-numeric key 1 and the numeric-prefixed key 001_init spans two of the
three convention classes, yet `getMigrationKeys` does not fail: both keys
match the leading-digit test, so the set is accepted and ordered by
numeric prefix. The repository documentation states that mixing key
patterns throws an error at runtime, so this is a divergence of the code
from its own documentation. -/
theorem getMigrationKeys_mixed_numeric_prefixed_accepted :
    getMigrationKeys ["1", "001_init"] false = Except.ok ["1", "001_init"] ∧
    isPureNumeric "1" = true ∧ isPureNumeric "001_init" = false ∧
    startsWithDigit "1" = true ∧ startsWithDigit "001_init" = true := by
  refine ⟨by decide, by decide, by decide, by decide, by decide⟩

/-! ### Claim C8 -/

/-- C8 (amended): the persisted migration record is one row with fields
table and version; the version sentinel is the empty string before any
migration; after a pass the version is the last applied key (or the
initial version when nothing was applied); and a key is skipped exactly
when the running version (the stored version, updated by keys already
applied earlier in the same pass) is non-empty and the comparator ranks
the key at or below it. -/
theorem migrate_record_spec (name : String) (ks : List String) :
    (initialMigrationData name none = { table := name, version := "" }) ∧
    (∀ v0, (migratePass ks v0).1 = (migratePass ks v0).2.getLastD v0) ∧
    (∀ v0 k ks2, v0 ≠ "" → compareMigrationKeys k v0 ≤ 0 →
      migratePass (k :: ks2) v0 = migratePass ks2 v0) ∧
    (∀ v0 k ks2, ¬(v0 ≠ "" ∧ compareMigrationKeys k v0 ≤ 0) →
      (migratePass (k :: ks2) v0).2 = k :: (migratePass ks2 k).2 ∧
      (migratePass (k :: ks2) v0).1 = (migratePass ks2 k).1) := by
  refine ⟨rfl, ?_, ?_, ?_⟩
  · intro v0
    induction ks generalizing v0 with
    | nil => rfl
    | cons k t ih =>
      by_cases h : v0 ≠ "" ∧ compareMigrationKeys k v0 ≤ 0
      · simp only [migratePass, if_pos h]
        exact ih v0
      · simp only [migratePass, if_neg h]
        rw [List.getLastD_cons]
        exact ih k
  · intro v0 k ks2 h1 h2
    simp only [migratePass, if_pos (And.intro h1 h2)]
  · intro v0 k ks2 h
    constructor
    · simp [migratePass, if_neg h]
    · simp [migratePass, if_neg h]

/-- C8 witness: a comparator-ranked-below key is skipped against a
non-empty version, and a comparator-ranked-above key is applied and
becomes the running version. -/
theorem migrate_record_spec_witness :
    migratePass ["1", "2"] "2" = migratePass ["2"] "2" ∧
    (migratePass ["2"] "1").2 = "2" :: (migratePass [] "2").2 :=
  ⟨(migrate_record_spec "t" ["1", "2"]).2.2.1 "2" "1" ["2"] (by decide) (by decide),
    ((migrate_record_spec "t" ["2"]).2.2.2 "1" "2" [] (by decide)).1⟩

/-- C8 counterexample: with stored version b (so this is a later pass) and
pure-string keys declared in the order d, c (which `getMigrationKeys`
keeps as is), key c is skipped even though the comparator ranks c strictly
above the stored version b: the skip decision compares against the running
version d set by the earlier key applied in the same pass, not against the
version stored at the start of the pass. -/
theorem migrate_skip_not_by_stored_version_cx :
    getMigrationKeys ["d", "c"] false = Except.ok ["d", "c"] ∧
    migratePass ["d", "c"] "b" = ("d", ["d"]) ∧
    compareMigrationKeys "c" "b" > 0 ∧
    ¬ ("c" ∈ (migratePass ["d", "c"] "b").2) := by
  refine ⟨by decide, by decide, by decide, by decide⟩

/-! ### Cache lookup helper lemmas -/

theorem lookupEntry_cons_eq {V : Type} {k key : String} (h : k = key) (e : CacheEntry V)
    (t : CacheState V) : lookupEntry ((k, e) :: t) key = some e := by
  simp [lookupEntry, h]

theorem lookupEntry_cons_ne {V : Type} {k key : String} (h : ¬ k = key) (e : CacheEntry V)
    (t : CacheState V) : lookupEntry ((k, e) :: t) key = lookupEntry t key := by
  simp [lookupEntry, h]

theorem delEntry_cons_eq {V : Type} {k key : String} (h : k = key) (e : CacheEntry V)
    (t : CacheState V) : delEntry key ((k, e) :: t) = t := by
  simp [delEntry, h]

theorem delEntry_cons_ne {V : Type} {k key : String} (h : ¬ k = key) (e : CacheEntry V)
    (t : CacheState V) : delEntry key ((k, e) :: t) = (k, e) :: delEntry key t := by
  simp [delEntry, h]

theorem setEntry_cons_eq {V : Type} {k key : String} (h : k = key) (e e0 : CacheEntry V)
    (t : CacheState V) : setEntry key e ((k, e0) :: t) = (key, e) :: t := by
  simp [setEntry, h]

theorem setEntry_cons_ne {V : Type} {k key : String} (h : ¬ k = key) (e e0 : CacheEntry V)
    (t : CacheState V) : setEntry key e ((k, e0) :: t) = (k, e0) :: setEntry key e t := by
  simp [setEntry, h]

theorem lookupEntry_eq_none_of_not_mem {V : Type} {cache : CacheState V} {key : String}
    (h : key ∉ cache.map Prod.fst) : lookupEntry cache key = none := by
  induction cache with
  | nil => rfl
  | cons p t ih =>
    obtain ⟨k, e⟩ := p
    simp only [List.map_cons, List.mem_cons, not_or] at h
    rw [lookupEntry_cons_ne (fun hk => h.1 hk.symm) e t]
    exact ih h.2

theorem lookupEntry_delEntry_self {V : Type} {cache : CacheState V} {key : String}
    (hnd : (cache.map Prod.fst).Nodup) : lookupEntry (delEntry key cache) key = none := by
  induction cache with
  | nil => rfl
  | cons p t ih =>
    obtain ⟨k, e⟩ := p
    simp only [List.map_cons, List.nodup_cons] at hnd
    by_cases hk : k = key
    · rw [delEntry_cons_eq hk e t]
      rw [← hk]
      exact lookupEntry_eq_none_of_not_mem hnd.1
    · rw [delEntry_cons_ne hk e t, lookupEntry_cons_ne hk e (delEntry key t)]
      exact ih hnd.2

theorem lookupEntry_delEntry_ne {V : Type} {cache : CacheState V} {key k2 : String}
    (h : k2 ≠ key) : lookupEntry (delEntry key cache) k2 = lookupEntry cache k2 := by
  induction cache with
  | nil => rfl
  | cons p t ih =>
    obtain ⟨k, e⟩ := p
    by_cases hk : k = key
    · rw [delEntry_cons_eq hk e t, lookupEntry_cons_ne (fun hc => h (hc.symm.trans hk)) e t]
    · rw [delEntry_cons_ne hk e t]
      by_cases hk2 : k = k2
      · rw [lookupEntry_cons_eq hk2 e (delEntry key t), lookupEntry_cons_eq hk2 e t]
      · rw [lookupEntry_cons_ne hk2 e (delEntry key t), lookupEntry_cons_ne hk2 e t]
        exact ih

theorem delEntry_of_lookup_none {V : Type} {cache : CacheState V} {key : String}
    (h : lookupEntry cache key = none) : delEntry key cache = cache := by
  induction cache with
  | nil => rfl
  | cons p t ih =>
    obtain ⟨k, e⟩ := p
    by_cases hk : k = key
    · rw [lookupEntry_cons_eq hk e t] at h
      exact absurd h (by simp)
    · rw [lookupEntry_cons_ne hk e t] at h
      rw [delEntry_cons_ne hk e t, ih h]

theorem lookupEntry_setEntry_self {V : Type} (cache : CacheState V) (key : String)
    (e : CacheEntry V) : lookupEntry (setEntry key e cache) key = some e := by
  induction cache with
  | nil => simp [setEntry, lookupEntry]
  | cons p t ih =>
    obtain ⟨k, e0⟩ := p
    by_cases hk : k = key
    · rw [setEntry_cons_eq hk e e0 t, lookupEntry_cons_eq rfl e t]
    · rw [setEntry_cons_ne hk e e0 t, lookupEntry_cons_ne hk e0 (setEntry key e t)]
      exact ih

/-! ### Claim C4 -/

/-- C4 (amended): a call to the cache get returns the cached value without
invoking the producer if and only if a live entry exists for the key,
where an entry is live exactly when its expiration is not strictly earlier
than the current time, that is when now is less than or equal to
expiresAt; otherwise get invokes the producer once with the arguments,
stores the result with expiresAt = now + ttl, and returns it. In
particular an entry whose expiresAt equals the current time is still
valid and does not trigger recomputation. -/
theorem rcGet_spec {P E V : Type} (request : P → Except E V) (timeout : ETime) (now : Nat)
    (cache : CacheState V) (key : String) (params : P) :
    (∀ c, lookupEntry cache key = some c → c.expires.ltNat now = false →
      rcGet request timeout now cache key params = (Except.ok c.value, cache, false)) ∧
    (∀ v, request params = Except.ok v →
      (lookupEntry cache key = none ∨
        ∃ c, lookupEntry cache key = some c ∧ c.expires.ltNat now = true) →
      rcGet request timeout now cache key params =
        (Except.ok v, setEntry key { value := v, expires := timeout.addNow now } cache, true)) ∧
    (∀ m : Nat, (ETime.fin m).ltNat now = false ↔ now ≤ m) := by
  refine ⟨?_, ?_, ?_⟩
  · intro c hc hexp
    simp [rcGet, hc, hexp]
  · intro v hv hmiss
    rcases hmiss with hnone | ⟨c, hc, hexp⟩
    · simp [rcGet, hnone, hv]
    · simp [rcGet, hc, hexp, hv]
  · intro m
    simp only [ETime.ltNat, decide_eq_false_iff_not, Nat.not_lt]

/-- C4 witness: an entry whose expiration equals the current time is
served from the cache without invoking the producer. -/
theorem rcGet_spec_witness :
    rcGet (fun _ : Unit => (Except.ok 7 : Except Unit Nat)) (ETime.fin 10) 100
        [("k", { value := 42, expires := ETime.fin 100 })] "k" () =
      (Except.ok 42, [("k", { value := 42, expires := ETime.fin 100 })], false) :=
  (rcGet_spec (fun _ : Unit => (Except.ok 7 : Except Unit Nat)) (ETime.fin 10) 100
      [("k", { value := 42, expires := ETime.fin 100 })] "k" ()).1
    { value := 42, expires := ETime.fin 100 } rfl (by decide)

/-- C4 counterexample: the claim says an entry whose expiresAt equals the
current time is no longer valid and triggers recomputation; at now = 100
with expiresAt = 100 the code serves the cached value 42 and does not
invoke the producer (which would have produced 7). -/
theorem rcGet_boundary_cx :
    rcGet (fun _ : Unit => (Except.ok 7 : Except Unit Nat)) (ETime.fin 10) 100
        [("k", { value := 42, expires := ETime.fin 100 })] "k" () =
      (Except.ok 42, [("k", { value := 42, expires := ETime.fin 100 })], false) ∧
    ¬ (100 < 100) := ⟨rfl, by decide⟩

/-! ### Claim C6 -/

/-- C6 (amended): whenever the producer is invoked, that is on either miss
mode (no entry for the key, or an entry that has expired), a producer that
throws synchronously propagates the failure verbatim, is invoked once
without retry, and stores nothing: the cache mapping, any stale expired
entry included, is exactly what it was before the call. A producer that
returns a rejected promise, however, has that rejected outcome stored as
the value of a cache entry for the key: the mapping does change. -/
theorem rcGet_producer_failure {P E V : Type} (request : P → Except E V) (timeout : ETime)
    (now : Nat) (cache : CacheState V) (key : String) (params : P) :
    (∀ e,
      (lookupEntry cache key = none ∨
        ∃ c, lookupEntry cache key = some c ∧ c.expires.ltNat now = true) →
      request params = Except.error e →
      rcGet request timeout now cache key params = (Except.error e, cache, true)) ∧
    (∀ {F R : Type} (request2 : P → Except E (Except F R)) (cache2 : CacheState (Except F R))
        (er : F),
      (lookupEntry cache2 key = none ∨
        ∃ c, lookupEntry cache2 key = some c ∧ c.expires.ltNat now = true) →
      request2 params = Except.ok (Except.error er) →
      rcGet request2 timeout now cache2 key params =
        (Except.ok (Except.error er),
          setEntry key { value := Except.error er, expires := timeout.addNow now } cache2,
          true)) := by
  constructor
  · intro e hmiss hv
    rcases hmiss with hnone | ⟨c, hc, hexp⟩
    · simp [rcGet, hnone, hv]
    · simp [rcGet, hc, hexp, hv]
  · intro F R request2 cache2 er hmiss hv
    rcases hmiss with hnone | ⟨c, hc, hexp⟩
    · simp [rcGet, hnone, hv]
    · simp [rcGet, hc, hexp, hv]

/-- C6 witness: a throwing producer propagates and the cache map is
unchanged, both when the key is absent and when its entry is expired (an
entry expiring at 3 read at time 9): the expired entry stays exactly as
it was, not poisoned and not removed. -/
theorem rcGet_producer_failure_witness :
    rcGet (fun _ : Unit => (Except.error "boom" : Except String Nat)) (ETime.fin 5) 0 [] "k" () =
      (Except.error "boom", [], true) ∧
    rcGet (fun _ : Unit => (Except.error "boom" : Except String Nat)) (ETime.fin 5) 9
        [("k", ⟨42, ETime.fin 3⟩)] "k" () =
      (Except.error "boom", [("k", ⟨42, ETime.fin 3⟩)], true) :=
  ⟨(rcGet_producer_failure (fun _ : Unit => (Except.error "boom" : Except String Nat))
      (ETime.fin 5) 0 [] "k" ()).1 "boom" (Or.inl rfl) rfl,
    (rcGet_producer_failure (fun _ : Unit => (Except.error "boom" : Except String Nat))
      (ETime.fin 5) 9 [("k", ⟨42, ETime.fin 3⟩)] "k" ()).1 "boom"
      (Or.inr ⟨⟨42, ETime.fin 3⟩, rfl, by decide⟩) rfl⟩

/-- C6 counterexample: a producer returning a rejected promise (modelled
as the settled outcome value) does have an entry stored for the key: the
map goes from empty, where the key is absent, to holding the rejected
outcome, contradicting the claim that no entry is stored on rejection and
that the mapping is exactly what it was before the call. -/
theorem rcGet_rejected_promise_cx :
    rcGet (fun _ : Unit => (Except.ok (Except.error "boom") : Except Unit (Except String Nat)))
        (ETime.fin 5) 0 [] "k" () =
      (Except.ok (Except.error "boom"),
        [("k", { value := Except.error "boom", expires := ETime.fin 5 })], true) ∧
    lookupEntry ([] : CacheState (Except String Nat)) "k" = none ∧
    lookupEntry
        [("k", (⟨Except.error "boom", ETime.fin 5⟩ : CacheEntry (Except String Nat)))] "k" =
      some { value := Except.error "boom", expires := ETime.fin 5 } := ⟨rfl, rfl, rfl⟩

/-! ### Claim C7 -/

/-- C7 (amended): for every non-empty key k, invalidate(k) removes exactly
the entry for k (other keys unaffected, no-op when absent) and a
subsequent get for k re-invokes the producer; invalidate() with no key
clears all entries. For the empty-string key the source guard `if (!id)`
treats the argument as absent, so invalidate("") clears all entries
instead of removing just one. -/
theorem rcInvalidate_spec {V : Type} (cache : CacheState V) (key : String) :
    (key ≠ "" → (cache.map Prod.fst).Nodup →
      lookupEntry (rcInvalidate (some key) cache) key = none) ∧
    (key ≠ "" → ∀ k2, k2 ≠ key →
      lookupEntry (rcInvalidate (some key) cache) k2 = lookupEntry cache k2) ∧
    (key ≠ "" → lookupEntry cache key = none → rcInvalidate (some key) cache = cache) ∧
    (rcInvalidate (none : Option String) cache = [] ∧
      ∀ k2, lookupEntry (rcInvalidate (none : Option String) cache) k2 =
        (none : Option (CacheEntry V))) ∧
    (∀ {P E : Type} (request : P → Except E V) (timeout : ETime) (now : Nat) (params : P),
      key ≠ "" → (cache.map Prod.fst).Nodup →
      (rcGet request timeout now (rcInvalidate (some key) cache) key params).2.2 = true) := by
  refine ⟨?_, ?_, ?_, ⟨rfl, fun k2 => rfl⟩, ?_⟩
  · intro hk hnd
    simp only [rcInvalidate, if_neg hk]
    exact lookupEntry_delEntry_self hnd
  · intro hk k2 hk2
    simp only [rcInvalidate, if_neg hk]
    exact lookupEntry_delEntry_ne hk2
  · intro hk h
    simp only [rcInvalidate, if_neg hk]
    exact delEntry_of_lookup_none h
  · intro P E request timeout now params hk hnd
    have hnone : lookupEntry (rcInvalidate (some key) cache) key = none := by
      simp only [rcInvalidate, if_neg hk]
      exact lookupEntry_delEntry_self hnd
    cases hreq : request params with
    | error e => simp [rcGet, hnone, hreq]
    | ok v => simp [rcGet, hnone, hreq]

/-- C7 witness: invalidating key a removes it, leaves key b intact, and a
following get for a re-invokes the producer. -/
theorem rcInvalidate_spec_witness :
    lookupEntry (rcInvalidate (some "a")
        [("a", { value := (1 : Nat), expires := ETime.inf }),
          ("b", { value := 2, expires := ETime.inf })]) "a" = none ∧
    lookupEntry (rcInvalidate (some "a")
        [("a", { value := (1 : Nat), expires := ETime.inf }),
          ("b", { value := 2, expires := ETime.inf })]) "b" =
      lookupEntry
        [("a", { value := (1 : Nat), expires := ETime.inf }),
          ("b", { value := 2, expires := ETime.inf })] "b" :=
  ⟨(rcInvalidate_spec
      [("a", { value := (1 : Nat), expires := ETime.inf }),
        ("b", { value := 2, expires := ETime.inf })] "a").1 (by decide) (by decide),
    (rcInvalidate_spec
      [("a", { value := (1 : Nat), expires := ETime.inf }),
        ("b", { value := 2, expires := ETime.inf })] "a").2.1 (by decide) "b" (by decide)⟩

/-- C7 counterexample: the claim quantifies over every string key, but for
the empty-string key invalidate("") clears the whole map: the entry of
the unrelated key a is removed, instead of the call being a no-op on the
absent key "". -/
theorem rcInvalidate_empty_key_cx :
    rcInvalidate (some "") [("a", { value := (1 : Nat), expires := ETime.inf })] =
      ([] : CacheState Nat) ∧
    lookupEntry
        (rcInvalidate (some "") [("a", { value := (1 : Nat), expires := ETime.inf })]) "a" =
      none ∧
    lookupEntry [("a", { value := (1 : Nat), expires := ETime.inf })] "a" =
      some { value := 1, expires := ETime.inf } := ⟨rfl, rfl, rfl⟩

/-! ### Claim C9 -/

/-- C9 (amended): the first get stores the produced value (in the source,
the pending promise itself) synchronously; a second get with the same key
before expiry, in particular while that promise is still pending, finds
the live entry and returns the same value without invoking the producer.
In-flight calls with the same key are therefore deduplicated: the
producer runs once, not twice. -/
theorem rcGet_inflight_dedup {P E V : Type} (request : P → Except E V) (timeout : ETime)
    (now now2 : Nat) (cache : CacheState V) (key : String) (params : P) (v : V)
    (h0 : lookupEntry cache key = none) (hreq : request params = Except.ok v)
    (hlive : (timeout.addNow now).ltNat now2 = false) :
    rcGet request timeout now cache key params =
      (Except.ok v, setEntry key { value := v, expires := timeout.addNow now } cache, true) ∧
    rcGet request timeout now2 (setEntry key { value := v, expires := timeout.addNow now } cache)
        key params =
      (Except.ok v, setEntry key { value := v, expires := timeout.addNow now } cache, false) := by
  constructor
  · simp [rcGet, h0, hreq]
  · have hl := lookupEntry_setEntry_self cache key
      { value := v, expires := timeout.addNow now }
    simp [rcGet, hl, hlive]

/-- C9 witness: two immediate gets for the same key with a 5 ms TTL; the
second does not invoke the producer. -/
theorem rcGet_inflight_dedup_witness :
    rcGet (fun _ : Unit => (Except.ok 7 : Except Unit Nat)) (ETime.fin 5) 0 [] "k" () =
      (Except.ok 7, [("k", { value := 7, expires := ETime.fin 5 })], true) ∧
    rcGet (fun _ : Unit => (Except.ok 7 : Except Unit Nat)) (ETime.fin 5) 0
        [("k", { value := 7, expires := ETime.fin 5 })] "k" () =
      (Except.ok 7, [("k", { value := 7, expires := ETime.fin 5 })], false) :=
  rcGet_inflight_dedup (fun _ : Unit => (Except.ok 7 : Except Unit Nat)) (ETime.fin 5) 0 0 []
    "k" () 7 rfl rfl (by decide)

/-- C9 counterexample: the claim says both of two same-key calls issued
before the first result resolves invoke the producer; in fact the second
call returns the entry stored synchronously by the first call and its
producer-invoked flag is false. -/
theorem rcGet_not_deduplicated_cx :
    (rcGet (fun _ : Unit => (Except.ok 7 : Except Unit Nat)) (ETime.fin 5) 0 [] "k" ()).2.2 =
      true ∧
    (rcGet (fun _ : Unit => (Except.ok 7 : Except Unit Nat)) (ETime.fin 5) 0 [] "k" ()).2.1 =
      [("k", { value := 7, expires := ETime.fin 5 })] ∧
    (rcGet (fun _ : Unit => (Except.ok 7 : Except Unit Nat)) (ETime.fin 5) 0
        [("k", { value := 7, expires := ETime.fin 5 })] "k" ()).2.2 = false :=
  ⟨rfl, rfl, rfl⟩

/-! ### Claim C5 -/

/-- C5: the table cache set invalidates the whole cache scope (this
table's caches together with every other table's caches and the
process-wide raw-query cache) before executing the write callback, and
returns the callback result; when the write fails the caches are still
left cold and the backing state is unchanged, so the next read recomputes
and a committed write is never shadowed by a superseded cached value. -/
theorem tableCacheSet_spec {Vw Vc Vr B R E : Type} (tname : String) (s : ORMState Vw Vc Vr)
    (db : B) (writeFn : B → Except E (R × B)) :
    (∀ e, writeFn db = Except.error e →
      tableCacheSet tname s db writeFn = (Except.error e, ormCacheInvalidate s, db)) ∧
    (∀ rv, writeFn db = Except.ok rv →
      tableCacheSet tname s db writeFn = (Except.ok rv.1, ormCacheInvalidate s, rv.2)) ∧
    (∀ k, lookupEntry (ormCacheInvalidate s).rawCache k = (none : Option (CacheEntry Vr))) ∧
    (∀ nt, nt ∈ (ormCacheInvalidate s).tables →
      nt.2.whereCache = ([] : CacheState Vw) ∧ nt.2.countCache = ([] : CacheState Vc)) := by
  refine ⟨?_, ?_, fun k => rfl, ?_⟩
  · intro e he
    simp [tableCacheSet, he]
  · intro rv hrv
    simp [tableCacheSet, hrv]
  · intro nt hnt
    simp only [ormCacheInvalidate, List.mem_map] at hnt
    obtain ⟨x, _, hx⟩ := hnt
    rw [← hx]
    exact ⟨rfl, rfl⟩

/-- C5 witness: a failing write on table a still leaves every cache of the
two-table state cold and returns the error with the backing state
unchanged. -/
theorem tableCacheSet_spec_witness :
    tableCacheSet "a"
        (⟨[("q", ⟨0, ETime.inf⟩)], [("a", ⟨[("w", ⟨1, ETime.inf⟩)], []⟩), ("b", ⟨[], []⟩)]⟩ :
          ORMState Nat Nat Nat) (5 : Nat)
        (fun _ => (Except.error "fail" : Except String (Nat × Nat))) =
      (Except.error "fail",
        ormCacheInvalidate
          (⟨[("q", ⟨0, ETime.inf⟩)], [("a", ⟨[("w", ⟨1, ETime.inf⟩)], []⟩), ("b", ⟨[], []⟩)]⟩ :
            ORMState Nat Nat Nat), 5) :=
  (tableCacheSet_spec "a" _ 5 (fun _ => (Except.error "fail" : Except String (Nat × Nat)))).1
    "fail" rfl

/-! ### Claim C10 -/

/-- C10: invalidation in the table cache set is not confined to the
invoking table: before the write runs, the row-set and count caches of
every table registered with the ORM are cleared, along with the
process-wide raw-query cache, regardless of the write outcome, so after
the call no table cache holds any entry created before it. -/
theorem tableCacheSet_clears_all_tables {Vw Vc Vr B R E : Type} (tname : String)
    (s : ORMState Vw Vc Vr) (db : B) (writeFn : B → Except E (R × B)) :
    ((tableCacheSet tname s db writeFn).2.1).tables =
      s.tables.map (fun nt => (nt.1, { whereCache := [], countCache := [] })) ∧
    ((tableCacheSet tname s db writeFn).2.1).rawCache = [] ∧
    (∀ nt, nt ∈ ((tableCacheSet tname s db writeFn).2.1).tables →
      (∀ k, lookupEntry nt.2.whereCache k = none) ∧
      (∀ k, lookupEntry nt.2.countCache k = none)) := by
  have hinv : (tableCacheSet tname s db writeFn).2.1 = ormCacheInvalidate s := by
    unfold tableCacheSet
    cases writeFn db with
    | error e => rfl
    | ok rv => rfl
  refine ⟨by rw [hinv]; rfl, by rw [hinv]; rfl, ?_⟩
  intro nt hnt
  rw [hinv] at hnt
  simp only [ormCacheInvalidate, List.mem_map] at hnt
  obtain ⟨x, _, hx⟩ := hnt
  rw [← hx]
  exact ⟨fun k => rfl, fun k => rfl⟩

/-- C10 witness: a set issued through table a clears the caches of the
unrelated table b as well. -/
theorem tableCacheSet_clears_all_tables_witness :
    ((tableCacheSet "a"
        (⟨[], [("b", ⟨[("w", ⟨1, ETime.inf⟩)], []⟩)]⟩ : ORMState Nat Nat Nat) (0 : Nat)
        (fun b => (Except.ok (7, b) : Except String (Nat × Nat)))).2.1).tables =
      [("b", ⟨[], []⟩)] ∧
    (∀ k, lookupEntry (("b", (⟨[], []⟩ : TableCaches Nat Nat)).2.whereCache) k = none) :=
  ⟨((tableCacheSet_clears_all_tables "a"
      (⟨[], [("b", ⟨[("w", ⟨1, ETime.inf⟩)], []⟩)]⟩ : ORMState Nat Nat Nat) (0 : Nat)
      (fun b => (Except.ok (7, b) : Except String (Nat × Nat)))).1).trans rfl,
    ((tableCacheSet_clears_all_tables "a"
      (⟨[], [("b", ⟨[("w", ⟨1, ETime.inf⟩)], []⟩)]⟩ : ORMState Nat Nat Nat) (0 : Nat)
      (fun b => (Except.ok (7, b) : Except String (Nat × Nat)))).2.2
      (("b", ⟨[], []⟩) : String × TableCaches Nat Nat)
      (List.mem_singleton_self (("b", ⟨[], []⟩) : String × TableCaches Nat Nat))).1⟩

end GhomOrm
